import Mathlib

/-!
Verification development for the `naechste` CLI linter (Rust).

The source files `src/utils.rs`, `src/rules.rs`, `src/diagnostics.rs`,
`src/linter.rs`, `src/main.rs` and `src/config.rs` are shallowly embedded
below.  Strings are modelled as `List Char` (`Str`), filesystem paths as
strings with `/` separators, and the filesystem itself as an explicit
finite map (`FS`) so that every operation of the original program becomes
an executable Lean function.  Regular expressions and glob patterns used
by the program are embedded as executable matchers that follow the
leftmost-first semantics of the Rust `regex` crate and the semantics of
the `glob` crate with its default `MatchOptions` (case sensitive,
`require_literal_separator = false`, `require_literal_leading_dot =
false`).
-/

/-! ## Characters and strings -/

/-- Strings of the modelled program, as explicit character lists. -/
abbrev Str := List Char

/-- Character data of a Lean string literal. -/
def str (s : String) : Str := s.data

/-- The single-quote character, written numerically. -/
def squote : Char := Char.ofNat 39

/-- The double-quote character, written numerically. -/
def dquote : Char := Char.ofNat 34

/-- Split a character list at every occurrence of `c`; the separators are
dropped and empty pieces are kept. -/
def splitOnChar (c : Char) : Str → List Str
  | [] => [[]]
  | x :: xs =>
    match splitOnChar c xs with
    | [] => []
    | seg :: rest => if x == c then [] :: seg :: rest else (x :: seg) :: rest

/-- Remove every leading occurrence of `c` (Rust `trim_start_matches`). -/
def trimStartChar (c : Char) (s : Str) : Str := s.dropWhile (fun d => d == c)

/-- Remove every trailing occurrence of `c` (Rust `trim_end_matches`). -/
def trimEndChar (c : Char) (s : Str) : Str :=
  (s.reverse.dropWhile (fun d => d == c)).reverse

/-- ASCII whitespace, the fragment of Rust `char::is_whitespace` and of the
regex class `\s` relevant to source files. -/
def isWs (c : Char) : Bool :=
  c == ' ' || c == '\t' || c == '\n' || c == '\r' ||
  c == Char.ofNat 11 || c == Char.ofNat 12

/-- Rust `str::trim` on the ASCII fragment. -/
def trimWs (s : Str) : Str := (s.dropWhile isWs).reverse.dropWhile isWs |>.reverse

/-- Strip a literal prefix, returning the remainder (Rust
`str::strip_prefix`). -/
def dropLit? (p s : Str) : Option Str :=
  if p.isPrefixOf s then some (s.drop p.length) else none

/-! ## Path model

Paths are strings with `/` separators.  `segsOf` is the component view used
by Rust `Path::strip_prefix` and `Path::parent`; `pathJoin` mirrors
`Path::join` (string concatenation with a separator, replacement on an
absolute right operand). -/

/-- Whether a path string is absolute. -/
def isAbsPath (p : Str) : Bool :=
  match p with
  | c :: _ => c == '/'
  | [] => false

/-- The non-empty components of a path string. -/
def segsOf (p : Str) : List Str :=
  (splitOnChar '/' p).filter (fun s => !s.isEmpty)

/-- Join components with `/` separators. -/
def joinSegs : List Str → Str
  | [] => []
  | [s] => s
  | s :: rest => s ++ '/' :: joinSegs rest

/-- Rebuild a path from an absolute flag and components. -/
def mkPath (abs : Bool) (segs : List Str) : Str :=
  (if abs then ['/'] else []) ++ joinSegs segs

/-- Rust `Path::strip_prefix`: component-wise prefix removal. -/
def stripPrefixPath (p base : Str) : Option Str :=
  if isAbsPath p == isAbsPath base then
    let ps := segsOf p
    let bs := segsOf base
    if bs.isPrefixOf ps then some (joinSegs (ps.drop bs.length)) else none
  else none

/-- Rust `Path::parent`: the path with its last component removed. -/
def parentPath (p : Str) : Option Str :=
  let ss := segsOf p
  if ss.isEmpty then none else some (mkPath (isAbsPath p) ss.dropLast)

/-- Rust `Path::join`. -/
def pathJoin (a b : Str) : Str :=
  if isAbsPath b then b
  else if a.isEmpty then b
  else if a.getLast? == some '/' then a ++ b
  else a ++ '/' :: b

/-- The root-relative form of a path used throughout `utils.rs`: the result
of `strip_prefix`, or the path unchanged when it is not under the root. -/
def relOf (path base : Str) : Str := (stripPrefixPath path base).getD path

/-! ## Filesystem model

A finite, read-only view of the filesystem: regular files, directories,
readable file contents, `canonicalize` results and directory listings. -/

/-- Association-list lookup keyed by strings. -/
def alookup {α : Type} (l : List (Str × α)) (k : Str) : Option α :=
  (l.find? (fun e => e.1 == k)).map Prod.snd

/-- The filesystem state observed during one run. -/
structure FS where
  files : List Str
  dirs : List Str
  contents : List (Str × Str)
  canonMap : List (Str × Str)
  entries : List (Str × List Str)

/-- `Path::is_file`. -/
def FS.isFile (fs : FS) (p : Str) : Bool := fs.files.contains p

/-- `Path::is_dir`. -/
def FS.isDir (fs : FS) (p : Str) : Bool := fs.dirs.contains p

/-- `Path::exists`. -/
def FS.pathExists (fs : FS) (p : Str) : Bool := fs.isFile p || fs.isDir p

/-- `fs::read_to_string`, `None` when the file is unreadable. -/
def FS.read (fs : FS) (p : Str) : Option Str := alookup fs.contents p

/-- `Path::canonicalize`, `None` when canonicalization fails. -/
def FS.canon (fs : FS) (p : Str) : Option Str := alookup fs.canonMap p

/-- `fs::read_dir`, listing entry file names. -/
def FS.readDir (fs : FS) (p : Str) : Option (List Str) := alookup fs.entries p

/-! ## Regular-expression matchers for `extract_imports`

`utils.rs` applies three regular expressions with the Rust `regex` crate:

* `import\s+.*?\s+from\s+['"]([^'"]+)['"]`
* `require\s*\(\s*['"]([^'"]+)['"]\s*\)`
* `export\s+.*?\s+from\s+['"]([^'"]+)['"]`

Each is embedded as an anchored matcher in continuation-passing style with
leftmost-first (backtracking) semantics; `.` excludes newlines and `\s` is
the ASCII whitespace class.  The capture class `[^'"]+` is deterministic
because it cannot contain its delimiting quote. -/

/-- The class `.` of the regex crate: any character but a newline. -/
def notNL (c : Char) : Bool := !(c == '\n')

/-- Either quote character, the class `['"]`. -/
def isQuote (c : Char) : Bool := c == squote || c == dquote

/-- Match a literal and pass the remainder to the continuation. -/
def reLit {α : Type} (l : Str) (k : Str → Option α) (s : Str) : Option α :=
  if l.isPrefixOf s then k (s.drop l.length) else none

/-- Greedy `cls*`: prefer consuming, backtracking into the continuation. -/
def reStarG {α : Type} (p : Char → Bool) (k : Str → Option α) : Str → Option α
  | [] => k []
  | c :: t =>
    if p c then
      match reStarG p k t with
      | some r => some r
      | none => k (c :: t)
    else k (c :: t)

/-- Lazy `cls*?`: prefer the continuation, consuming only on failure. -/
def reStarL {α : Type} (p : Char → Bool) (k : Str → Option α) : Str → Option α
  | [] => k []
  | c :: t =>
    match k (c :: t) with
    | some r => some r
    | none => if p c then reStarL p k t else none

/-- Greedy `cls+`. -/
def rePlusG {α : Type} (p : Char → Bool) (k : Str → Option α) : Str → Option α
  | [] => none
  | c :: t => if p c then reStarG p k t else none

/-- The capture shape `['"]([^'"]+)['"]`: an opening quote, a non-empty
quote-free run handed to the continuation, and a closing quote. -/
def reQuoteCap {α : Type} (k : Str → Str → Option α) (s : Str) : Option α :=
  match s with
  | [] => none
  | c :: rest =>
    if isQuote c then
      if (rest.takeWhile (fun d => !isQuote d)).isEmpty then none
      else
        match rest.drop (rest.takeWhile (fun d => !isQuote d)).length with
        | [] => none
        | d :: rest2 =>
          if isQuote d then k (rest.takeWhile (fun d => !isQuote d)) rest2 else none
    else none

/-- Anchored match of `import\s+.*?\s+from\s+['"]([^'"]+)['"]`, returning
the capture and the remainder after the match. -/
def importAt (s : Str) : Option (Str × Str) :=
  reLit (str "import")
    (rePlusG isWs
      (reStarL notNL
        (rePlusG isWs
          (reLit (str "from")
            (rePlusG isWs
              (reQuoteCap (fun cap rest => some (cap, rest)))))))) s

/-- Anchored match of `require\s*\(\s*['"]([^'"]+)['"]\s*\)`. -/
def requireAt (s : Str) : Option (Str × Str) :=
  reLit (str "require")
    (reStarG isWs
      (reLit (str "(")
        (reStarG isWs
          (reQuoteCap (fun cap =>
            reStarG isWs
              (reLit (str ")") (fun rest => some (cap, rest)))))))) s

/-- Anchored match of `export\s+.*?\s+from\s+['"]([^'"]+)['"]`. -/
def exportAt (s : Str) : Option (Str × Str) :=
  reLit (str "export")
    (rePlusG isWs
      (reStarL notNL
        (rePlusG isWs
          (reLit (str "from")
            (rePlusG isWs
              (reQuoteCap (fun cap rest => some (cap, rest)))))))) s

/-- `captures_iter`: scan left to right, record each match's start position
and capture, and continue after the end of the match.  The fuel argument
bounds the recursion; `scanCaps` below supplies enough of it. -/
def scanPos (m : Str → Option (Str × Str)) : Nat → Nat → Str → List (Nat × Str)
  | 0, _, _ => []
  | _ + 1, _, [] => []
  | fuel + 1, pos, c :: t =>
    match m (c :: t) with
    | some (cap, rest) =>
      (pos, cap) :: scanPos m fuel (pos + (t.length + 1 - rest.length)) rest
    | none => scanPos m fuel (pos + 1) t

/-- All positioned captures of a matcher over a text. -/
def scanCaps (m : Str → Option (Str × Str)) (content : Str) : List (Nat × Str) :=
  scanPos m (content.length + 1) 0 content

/-- The capture strings of a matcher over a text, in scan order: exactly
the sequence a `captures_iter` loop of `utils.rs` pushes. -/
def capsOf (m : Str → Option (Str × Str)) (content : Str) : List Str :=
  (scanCaps m content).map Prod.snd

/-- `utils.rs` `extract_imports`: read the file (unreadable files yield no
imports), then push the captures of the import pattern, then those of the
require pattern, then those of the export pattern. -/
def extract_imports (fs : FS) (file : Str) : List Str :=
  match fs.read file with
  | none => []
  | some content =>
    capsOf importAt content ++ capsOf requireAt content ++ capsOf exportAt content

/-! ## Glob patterns

Model of the `glob` crate (a dependency, not part of this repository's
sources): `Pattern::new` with its validity rules (at most two consecutive
`*`; a recursive `**` must form a single path component; a `[` must open a
well-formed character class) and `Pattern::matches` under the default
`MatchOptions`, where `*`, `?` and character classes may match `/`. -/

/-- A character-class atom: a single character or an inclusive range. -/
inductive CharSpec where
  | single (c : Char)
  | range (a b : Char)
deriving DecidableEq

/-- One token of a compiled glob pattern. -/
inductive GTok where
  | gchar (c : Char)
  | anyChar
  | anySeq
  | anyRecSeq
  | anyWithin (cs : List CharSpec)
  | anyExcept (cs : List CharSpec)
deriving DecidableEq

/-- Parse the inside of a character class: `a-b` becomes a range, any
other character stands for itself. -/
def parseCharSpecs : Str → List CharSpec
  | [] => []
  | a :: dash :: b :: rest2 =>
    if dash == '-' then CharSpec.range a b :: parseCharSpecs rest2
    else CharSpec.single a :: parseCharSpecs (dash :: b :: rest2)
  | a :: rest => CharSpec.single a :: parseCharSpecs rest

/-- Membership of a character in a class, case sensitively. -/
def inSpecs (cs : List CharSpec) (c : Char) : Bool :=
  cs.any (fun sp =>
    match sp with
    | CharSpec.single c2 => c == c2
    | CharSpec.range a b => a ≤ c && c ≤ b)

/-- Push an `anyRecSeq` token onto the reversed accumulator, skipping the
push when the last pushed token is already recursive and more than one
token exists — the collapse rule of `Pattern::new`. -/
def pushARS (acc : List GTok) : List GTok :=
  if 1 < acc.length && acc.head? == some GTok.anyRecSeq then acc
  else GTok.anyRecSeq :: acc

/-- `Pattern::new`, tokenising with a fuel bound: `prev` is the character
before the current position and `acc` the reversed token list. -/
def parseGlob : Nat → Option Char → List GTok → Str → Option (List GTok)
  | 0, _, _, _ => none
  | _ + 1, _, acc, [] => some acc.reverse
  | fuel + 1, prev, acc, c :: rest =>
    if c == '?' then parseGlob fuel (some '?') (GTok.anyChar :: acc) rest
    else if c == '*' then
      let count := 1 + (rest.takeWhile (fun d => d == '*')).length
      if 2 < count then none
      else if count == 2 then
        if prev == none || prev == some '/' then
          match rest.drop 1 with
          | [] => parseGlob fuel (some '*') (pushARS acc) []
          | d :: rest3 =>
            if d == '/' then parseGlob fuel (some '/') (pushARS acc) rest3
            else none
        else none
      else parseGlob fuel (some '*') (GTok.anySeq :: acc) rest
    else if c == '[' then
      if 3 ≤ rest.length && rest.head? == some '!' then
        match (rest.drop 2).findIdx? (fun d => d == ']') with
        | some j =>
          parseGlob fuel (some ']')
            (GTok.anyExcept (parseCharSpecs ((rest.drop 1).take (j + 1))) :: acc)
            (rest.drop (j + 3))
        | none => none
      else if 2 ≤ rest.length && !(rest.head? == some '!') then
        match (rest.drop 1).findIdx? (fun d => d == ']') with
        | some j =>
          parseGlob fuel (some ']')
            (GTok.anyWithin (parseCharSpecs (rest.take (j + 1))) :: acc)
            (rest.drop (j + 2))
        | none => none
      else none
    else parseGlob fuel (some c) (GTok.gchar c :: acc) rest

/-- Compile a glob pattern, `none` on invalid syntax. -/
def globNew (pat : Str) : Option (List GTok) :=
  parseGlob (pat.length + 1) none [] pat

/-- Outcome of a sub-pattern match attempt, as in the crate: running out
of file inside the pattern is distinguished so that a star stops widening
its tries. -/
inductive MatchRes where
  | matched
  | subFail
  | entireFail
deriving DecidableEq

/-- The matching loop of `Pattern::matches_from` with default options.
`mode = some isRec` is the widening loop of a star token whose remaining
tokens are `toks`; `mode = none` consumes `toks` directly.  `fsep` records
whether the previous consumed character was a separator.  A star that
widens past the end of the file falls through to the remaining tokens, as
the crate's fused iterator does. -/
def globGo : Nat → Option Bool → Bool → Str → List GTok → MatchRes
  | 0, _, _, _, _ => MatchRes.subFail
  | fuel + 1, some isRec, fsep, file, ts =>
    match file with
    | [] => globGo fuel none fsep [] ts
    | c :: rest =>
      let fsep2 := c == '/'
      if isRec && !fsep2 then globGo fuel (some isRec) fsep2 rest ts
      else
        match globGo fuel none fsep2 rest ts with
        | MatchRes.subFail => globGo fuel (some isRec) fsep2 rest ts
        | m => m
  | fuel + 1, none, fsep, file, toks =>
    match toks with
    | [] => if file.isEmpty then MatchRes.matched else MatchRes.subFail
    | tok :: ts =>
      match tok with
      | GTok.anySeq =>
        (match globGo fuel none fsep file ts with
         | MatchRes.subFail => globGo fuel (some false) fsep file ts
         | m => m)
      | GTok.anyRecSeq =>
        (match globGo fuel none fsep file ts with
         | MatchRes.subFail => globGo fuel (some true) fsep file ts
         | m => m)
      | _ =>
        match file with
        | [] => MatchRes.entireFail
        | c :: rest =>
          let ok :=
            match tok with
            | GTok.gchar c2 => c == c2
            | GTok.anyChar => true
            | GTok.anyWithin cs => inSpecs cs c
            | GTok.anyExcept cs => !(inSpecs cs c)
            | _ => false
          if ok then globGo fuel none (c == '/') rest ts else MatchRes.subFail

/-- `Pattern::matches` with default options; matching starts as if a
separator preceded the file. -/
def globMatches (toks : List GTok) (s : Str) : Bool :=
  globGo (2 * (s.length + toks.length) + 8) none true s toks == MatchRes.matched

/-! ## `utils.rs` -/

/-- `utils.rs` `matches_glob`: make the path root-relative, compile the
pattern (invalid syntax means no match), and try both the bare relative
path and its leading-slash form. -/
def matches_glob (path : Str) (pattern : Str) (base : Str) : Bool :=
  let rel := relOf path base
  match globNew pattern with
  | some p => globMatches p rel || globMatches p ('/' :: rel)
  | none => false

/-- `utils.rs` `is_excluded`. -/
def is_excluded (path : Str) (excludes : List Str) (base : Str) : Bool :=
  excludes.any (fun pat => matches_glob path pat base)

/-- `utils.rs` `find_sibling_by_glob`: entries of `dir` whose file name
matches the pattern; an invalid pattern or unreadable directory yields
none. -/
def find_sibling_by_glob (fs : FS) (dir : Str) (pat : Str) : List Str :=
  match globNew pat with
  | none => []
  | some p =>
    match fs.readDir dir with
    | none => []
    | some names => (names.filter (fun n => globMatches p n)).map (fun n => pathJoin dir n)

/-- `utils.rs` `resolve_import_path`. -/
def resolve_import_path (spec importer root : Str) : Option Str :=
  if (str "@/").isPrefixOf spec then
    match dropLit? (str "@/") spec with
    | some r => some (pathJoin root r)
    | none => none
  else if (str "./").isPrefixOf spec || (str "../").isPrefixOf spec then
    match parentPath importer with
    | some d => some (pathJoin d spec)
    | none => none
  else none

/-- The extension list of `resolve_to_actual_file`, the literal probe
first. -/
def probeExts : List Str :=
  [str "", str ".ts", str ".tsx", str ".js", str ".jsx", str ".mjs", str ".cjs"]

/-- The index-stem extension list of `resolve_to_actual_file`. -/
def indexExts : List Str :=
  [str ".ts", str ".tsx", str ".js", str ".jsx", str ".mjs", str ".cjs"]

/-- `utils.rs` `resolve_to_actual_file`: probe the literal path and each
extension, then — when the candidate is a directory — each `index` file
inside it; the first existing regular file wins. -/
def resolve_to_actual_file (fs : FS) (base : Str) : Option Str :=
  match probeExts.findSome? (fun ext =>
      if fs.pathExists (base ++ ext) && fs.isFile (base ++ ext) then some (base ++ ext)
      else none) with
  | some c => some c
  | none =>
    if fs.isDir base then
      indexExts.findSome? (fun ext =>
        if fs.pathExists (pathJoin base (str "index" ++ ext)) &&
            fs.isFile (pathJoin base (str "index" ++ ext)) then
          some (pathJoin base (str "index" ++ ext))
        else none)
    else none

/-- Append an importer to the entry of `k`, creating the entry at the end
when absent — the `entry(..).or_insert_with(Vec::new).push(..)` step on an
association list with unique keys. -/
def indexInsert : List (Str × List Str) → Str → Str → List (Str × List Str)
  | [], k, v => [(k, [v])]
  | e :: rest, k, v =>
    if e.1 == k then (e.1, e.2 ++ [v]) :: rest else e :: indexInsert rest k v

/-- The importer list recorded for a target, empty when absent. -/
def indexLookup (idx : List (Str × List Str)) (k : Str) : List Str :=
  (alookup idx k).getD []

/-- The keys of the import index. -/
def indexKeys (idx : List (Str × List Str)) : List Str := idx.map Prod.fst

/-- The normalised target of one specifier of one importer: resolve the
specifier, probe for the actual file, and canonicalize (falling back to
the probed path when canonicalization fails) — the body of the inner loop
of `build_import_index`. -/
def normalizedTarget (fs : FS) (root importer spec : Str) : Option Str :=
  match resolve_import_path spec importer root with
  | none => none
  | some resolved =>
    match resolve_to_actual_file fs resolved with
    | none => none
    | some actual => some ((fs.canon actual).getD actual)

/-- The inner loop body of `build_import_index`: record `importer` under
the normalised target of one specifier, when it resolves. -/
def recordSpec (fs : FS) (root importer : Str)
    (idx : List (Str × List Str)) (spec : Str) : List (Str × List Str) :=
  match normalizedTarget fs root importer spec with
  | none => idx
  | some normalized => indexInsert idx normalized importer

/-- The outer loop body of `build_import_index`: record one importer under
each of its extracted specifiers. -/
def recordFile (fs : FS) (root : Str) (idx : List (Str × List Str))
    (importer : Str) : List (Str × List Str) :=
  (extract_imports fs importer).foldl (recordSpec fs root importer) idx

/-- `utils.rs` `build_import_index`: for every file, record it as an
importer under the normalised target of each of its specifiers. -/
def build_import_index (fs : FS) (files : List Str) (root : Str) :
    List (Str × List Str) :=
  files.foldl (recordFile fs root) []

/-- `utils.rs` `is_under_any_prefix`: make the path root-relative, trim
leading and trailing slashes off each prefix, and accept when the relative
path starts with the trimmed prefix or with the trimmed prefix followed by
a slash. -/
def is_under_any_prefix (path : Str) (prefixes : List Str) (base : Str) : Bool :=
  let pathStr := relOf path base
  prefixes.any (fun pre =>
    let normalized := trimEndChar '/' (trimStartChar '/' pre)
    normalized.isPrefixOf pathStr || (normalized ++ ['/']).isPrefixOf pathStr)

/-! ## `diagnostics.rs` -/

/-- Diagnostic severity. -/
inductive Severity where
  | warn
  | error
deriving DecidableEq

/-- One emitted diagnostic. -/
structure Diagnostic where
  severity : Severity
  rule : Str
  message : Str
  file : Str
  line : Option Nat
deriving DecidableEq

/-- The diagnostic sink; `add` appends. -/
structure DiagnosticCollection where
  diagnostics : List Diagnostic
deriving DecidableEq

/-- `matches!(d.severity, Severity::Error)`. -/
def isErrorDiag (d : Diagnostic) : Bool :=
  match d.severity with
  | Severity.error => true
  | Severity.warn => false

/-- `DiagnosticCollection::has_errors`. -/
def has_errors (c : DiagnosticCollection) : Bool :=
  c.diagnostics.any isErrorDiag

/-- The exit code computed at the end of `main`:
`if diagnostics.has_errors() { 1 } else { 0 }`. -/
def main_exit_code (c : DiagnosticCollection) : Nat :=
  if has_errors c then 1 else 0

/-! ## `config.rs` -/

/-- `config.rs` `FilenameStyle`. -/
inductive FilenameStyle where
  | kebabCase
  | camelCase
  | pascalCase
  | snakeCase
deriving DecidableEq

/-- `config.rs` `MatchPattern`. -/
structure MatchPattern where
  glob : Str
  exclude_glob : List Str
deriving DecidableEq

/-- `config.rs` `RequireKind`. -/
inductive RequireKind where
  | siblingExact (name : Str)
  | siblingGlob (glob : Str)
deriving DecidableEq

/-- `config.rs` `WhenImportedBy`. -/
structure WhenImportedBy where
  importer_glob : Str
  import_path_matches : List Str
deriving DecidableEq

/-- `config.rs` `EnforceLocation`. -/
structure EnforceLocation where
  must_be_under : List Str
  message : Option Str
deriving DecidableEq

/-- `config.rs` `OrganizationCheck`. -/
structure OrganizationCheck where
  id : Str
  description : Option Str
  matchPat : MatchPattern
  require : List RequireKind
  when_imported_by : Option WhenImportedBy
  enforce_location : Option EnforceLocation
deriving DecidableEq

/-- The fields of `config.rs` `RuleOptions` consumed by the embedded
rules. -/
structure RuleOptions where
  max_nesting_depth : Nat
  filename_style : FilenameStyle
  file_organization_checks : List OrganizationCheck
deriving DecidableEq

/-- `config.rs` `RuleConfig`. -/
structure RuleConfig where
  severity : Severity
  options : RuleOptions
deriving DecidableEq

/-- `config.rs` `Rules`. -/
structure Rules where
  server_side_exports : RuleConfig
  component_nesting_depth : RuleConfig
  filename_style_consistency : RuleConfig
  missing_companion_files : RuleConfig
  file_organization : RuleConfig
deriving DecidableEq

/-- `config.rs` `Config`. -/
structure Config where
  rules : Rules
deriving DecidableEq

/-! ## `rules.rs`: server-side exports in client components -/

/-- The directive written with single quotes. -/
def useClientSingle : Str := squote :: str "use client" ++ [squote]

/-- The directive written with double quotes. -/
def useClientDouble : Str := dquote :: str "use client" ++ [dquote]

/-- The `lines()` iterator: split at newlines, drop a trailing `\r`, and
omit the piece after a final newline. -/
def linesOf (content : Str) : List Str :=
  (splitOnChar '\n' content).map (fun l =>
    if l.getLast? == some '\r' then l.dropLast else l)

/-- The `has_use_client` test inside `check_server_side_exports`: some
line, once trimmed, is exactly the `use client` directive in single or
double quotes. -/
def has_use_client (content : Str) : Bool :=
  (linesOf content).any (fun line =>
    let trimmed := trimWs line
    trimmed == useClientSingle || trimmed == useClientDouble)

/-- The server-only export names checked by `check_server_side_exports`,
in source order. -/
def server_exports : List Str :=
  [str "getServerSideProps", str "getStaticProps", str "getStaticPaths",
   str "getInitialProps"]

/-- Anchored match of `export\s+(const|function|async\s+function)\s+NAME`:
the alternation is tried left to right with backtracking. -/
def serverExportAt (name : Str) (s : Str) : Option Unit :=
  reLit (str "export")
    (rePlusG isWs (fun s2 =>
      let tail := rePlusG isWs (reLit name (fun _ => some ()))
      match reLit (str "const") tail s2 with
      | some r => some r
      | none =>
        match reLit (str "function") tail s2 with
        | some r => some r
        | none => reLit (str "async") (rePlusG isWs (reLit (str "function") tail)) s2)) s

/-- `Regex::is_match` for the export pattern: a match starts at some
position of the content. -/
def hasServerExport (name : Str) : Str → Bool
  | [] => false
  | c :: t => (serverExportAt name (c :: t)).isSome || hasServerExport name t

/-- The diagnostic pushed for one server-only export name. -/
def serverExportDiag (sev : Severity) (path name : Str) : Diagnostic :=
  { severity := sev
    rule := str "server-side-exports"
    message := str "Server-side export " ++ squote :: name ++ squote :: str " found in client component"
    file := path
    line := none }

/-- `rules.rs` `check_server_side_exports`. -/
def check_server_side_exports (fs : FS) (path : Str) (config : Config)
    (d : List Diagnostic) : List Diagnostic :=
  match fs.read path with
  | none => d
  | some content =>
    if !has_use_client content then d
    else
      server_exports.foldl (fun d name =>
        if hasServerExport name content then
          d ++ [serverExportDiag config.rules.server_side_exports.severity path name]
        else d) d

/-! ## `rules.rs`: filename style -/

/-- Rust `Path::file_name`: the last path component, `None` for a bare
`..`. -/
def fileNameOf (p : Str) : Option Str :=
  match ((segsOf p).filter (fun s => !(s == str "."))).getLast? with
  | none => none
  | some seg => if seg == str ".." then none else some seg

/-- The stem of a file name: the portion before the final dot, or the
whole name when there is no dot or the dot is leading. -/
def stemOfName (name : Str) : Str :=
  let afterRev := name.reverse.takeWhile (fun c => !(c == '.'))
  if afterRev.length == name.length then name
  else
    let beforeLen := name.length - afterRev.length - 1
    if beforeLen == 0 then name else name.take beforeLen

/-- Rust `Path::file_stem`. -/
def file_stem (p : Str) : Option Str := (fileNameOf p).map stemOfName

/-- The special Next.js and configuration file stems skipped by
`check_filename_style`. -/
def special_files : List Str :=
  [str "page", str "layout", str "template", str "loading", str "error",
   str "not-found", str "route", str "default", str "middleware",
   str "next.config", str "tailwind.config", str "postcss.config",
   str "eslint.config", str "tsconfig", str "jsconfig",
   str "vitest.config", str "jest.config"]

/-- Lower-case ASCII letter. -/
def isLowerAlpha (c : Char) : Bool := 'a' ≤ c && c ≤ 'z'

/-- Upper-case ASCII letter. -/
def isUpperAlpha (c : Char) : Bool := 'A' ≤ c && c ≤ 'Z'

/-- ASCII digit. -/
def isDigitCh (c : Char) : Bool := '0' ≤ c && c ≤ '9'

/-- Lower-case letter or digit, the class `[a-z0-9]`. -/
def isLowerDigit (c : Char) : Bool := isLowerAlpha c || isDigitCh c

/-- Letter or digit, the class `[a-zA-Z0-9]`. -/
def isAlnumCh (c : Char) : Bool := isLowerAlpha c || isUpperAlpha c || isDigitCh c

/-- The group suffix `(sep [a-z0-9]+)*$` shared by the kebab and snake
regular expressions, with a fuel bound. -/
def styleGroups (sep : Char) : Nat → Str → Bool
  | _, [] => true
  | 0, _ => false
  | fuel + 1, c :: rest =>
    if c == sep then
      let seg := rest.takeWhile isLowerDigit
      !seg.isEmpty && styleGroups sep fuel (rest.drop seg.length)
    else false

/-- `rules.rs` `is_kebab_case`: the regex `^[a-z][a-z0-9]*(-[a-z0-9]+)*$`. -/
def is_kebab_case (s : Str) : Bool :=
  match s with
  | [] => false
  | c :: rest =>
    isLowerAlpha c &&
      styleGroups '-' rest.length (rest.drop (rest.takeWhile isLowerDigit).length)

/-- `rules.rs` `is_camel_case`: `^[a-z][a-zA-Z0-9]*$` plus an upper-case
letter somewhere. -/
def is_camel_case (s : Str) : Bool :=
  match s with
  | [] => false
  | c :: rest => isLowerAlpha c && rest.all isAlnumCh && s.any isUpperAlpha

/-- `rules.rs` `is_pascal_case`: `^[A-Z][a-zA-Z0-9]*$` plus a lower-case
letter somewhere. -/
def is_pascal_case (s : Str) : Bool :=
  match s with
  | [] => false
  | c :: rest => isUpperAlpha c && rest.all isAlnumCh && s.any isLowerAlpha

/-- `rules.rs` `is_snake_case`: `^[a-z][a-z0-9]*(_[a-z0-9]+)*$`. -/
def is_snake_case (s : Str) : Bool :=
  match s with
  | [] => false
  | c :: rest =>
    isLowerAlpha c &&
      styleGroups '_' rest.length (rest.drop (rest.takeWhile isLowerDigit).length)

/-- The style test dispatched on the configured style. -/
def matchesStyle (style : FilenameStyle) (s : Str) : Bool :=
  match style with
  | FilenameStyle.kebabCase => is_kebab_case s
  | FilenameStyle.camelCase => is_camel_case s
  | FilenameStyle.pascalCase => is_pascal_case s
  | FilenameStyle.snakeCase => is_snake_case s

/-- The diagnostic pushed by `check_filename_style`; the style name stands
in for the `{:?}` rendering. -/
def filenameStyleDiag (sev : Severity) (path stem : Str) (style : FilenameStyle) : Diagnostic :=
  { severity := sev
    rule := str "filename-style-consistency"
    message := str "Filename " ++ squote :: stem ++ squote :: str " does not match expected style: " ++
      (match style with
       | FilenameStyle.kebabCase => str "KebabCase"
       | FilenameStyle.camelCase => str "CamelCase"
       | FilenameStyle.pascalCase => str "PascalCase"
       | FilenameStyle.snakeCase => str "SnakeCase")
    file := path
    line := none }

/-- `rules.rs` `check_filename_style`. -/
def check_filename_style (path : Str) (config : Config)
    (d : List Diagnostic) : List Diagnostic :=
  match file_stem path with
  | none => d
  | some stem =>
    if special_files.contains stem then d
    else
      let expected := config.rules.filename_style_consistency.options.filename_style
      if matchesStyle expected stem then d
      else d ++ [filenameStyleDiag config.rules.filename_style_consistency.severity path stem expected]

/-! ## The file-organization rule evaluator

`rules::check_file_organization` is invoked from `linter.rs` but its
definition is not among the repository's source files; the evaluator is
therefore modelled from the specification (section 4.5 of the design
document), on top of the embedded `utils.rs` primitives. -/

/-- Whether `pat` occurs as a contiguous substring of `s`. -/
def containsLit (pat : Str) : Str → Bool
  | [] => pat.isEmpty
  | c :: t => pat.isPrefixOf (c :: t) || containsLit pat t

/-- Modelled from the spec: the test of one configured regular expression
of `import_path_matches` against a specifier.  The repository's sources do
not contain the evaluator that performs this test; the model supports the
regex subset exercised by the configuration scenarios — a pattern starting
with the anchor `^` matches as a literal prefix, any other pattern matches
as a literal substring. -/
def regexTest (pat spec : Str) : Bool :=
  match pat with
  | c :: rest => if c == '^' then rest.isPrefixOf spec else containsLit pat spec
  | [] => true

/-- Comma-separated rendering of the allowed prefixes, for the generated
location message. -/
def joinComma : List Str → Str
  | [] => []
  | [s] => s
  | s :: rest => s ++ str ", " ++ joinComma rest

/-- Modelled from the spec: the location diagnostic, using the configured
custom message when present, otherwise a generated message naming the
importer and the allowed prefixes; the rule id is namespaced as
`file-organization:<id>`. -/
def locationDiag (sev : Severity) (checkId : Str) (el : EnforceLocation)
    (importer file : Str) : Diagnostic :=
  { severity := sev
    rule := str "file-organization:" ++ checkId
    message := el.message.getD
      (str "File is imported by " ++ importer ++ str " and must be under one of: " ++
        joinComma el.must_be_under)
    file := file
    line := none }

/-- Modelled from the spec: the sibling-requirement diagnostic naming the
missing companion. -/
def requireDiag (sev : Severity) (checkId missing file : Str) : Diagnostic :=
  { severity := sev
    rule := str "file-organization:" ++ checkId
    message := str "Missing required companion " ++ missing
    file := file
    line := none }

/-- Modelled from the spec: one sibling requirement — an exact name checks
literal existence beside the file, a glob requirement checks for at least
one matching entry of the parent directory. -/
def checkRequirement (fs : FS) (sev : Severity) (checkId file : Str)
    (req : RequireKind) (d : List Diagnostic) : List Diagnostic :=
  let parent := (parentPath file).getD []
  match req with
  | RequireKind.siblingExact name =>
    if fs.pathExists (pathJoin parent name) then d
    else d ++ [requireDiag sev checkId name file]
  | RequireKind.siblingGlob pat =>
    if (find_sibling_by_glob fs parent pat).isEmpty then
      d ++ [requireDiag sev checkId pat file]
    else d

/-- Modelled from the spec: whether an importer triggers the location
constraint — it matches the importer glob and one of its specifiers
matches one of the configured regular expressions. -/
def importerTriggers (fs : FS) (root : Str) (wib : WhenImportedBy)
    (importer : Str) : Bool :=
  matches_glob importer wib.importer_glob root &&
    (extract_imports fs importer).any (fun sp =>
      wib.import_path_matches.any (fun pat => regexTest pat sp))

/-- Modelled from the spec: the conditional-placement step for one file —
only when both the trigger and the constraint are configured: canonicalize
the file, look its importer set up in the import index, find the first
triggering importer, and emit at most one location diagnostic when the
file is not under any allowed prefix. -/
def checkLocation (fs : FS) (root : Str) (sev : Severity)
    (idx : List (Str × List Str)) (check : OrganizationCheck) (file : Str)
    (d : List Diagnostic) : List Diagnostic :=
  match check.when_imported_by, check.enforce_location with
  | some wib, some el =>
    let canonical := (fs.canon file).getD file
    let importers := indexLookup idx canonical
    match importers.find? (fun imp => importerTriggers fs root wib imp) with
    | some imp =>
      if is_under_any_prefix file el.must_be_under root then d
      else d ++ [locationDiag sev check.id el imp file]
    | none => d
  | _, _ => d

/-- Modelled from the spec: one (rule, file) pair — match, require,
conditional placement. -/
def checkOneFile (fs : FS) (root : Str) (sev : Severity)
    (idx : List (Str × List Str)) (check : OrganizationCheck) (file : Str)
    (d : List Diagnostic) : List Diagnostic :=
  if matches_glob file check.matchPat.glob root &&
      !is_excluded file check.matchPat.exclude_glob root then
    let d := check.require.foldl
      (fun d req => checkRequirement fs sev check.id file req d) d
    checkLocation fs root sev idx check file d
  else d

/-- Modelled from the spec: `rules::check_file_organization` — build the
index of importers once, then evaluate every configured rule against every
candidate file. -/
def check_file_organization (fs : FS) (root : Str) (files : List Str)
    (config : Config) (d : List Diagnostic) : List Diagnostic :=
  let idx := build_import_index fs files root
  let sev := config.rules.file_organization.severity
  config.rules.file_organization.options.file_organization_checks.foldl
    (fun d check =>
      files.foldl (fun d file => checkOneFile fs root sev idx check file d) d) d

/-! ## Specification-side definitions used by the claims -/

/-- The probe order described by the specification for
`resolve_to_actual_file`: the literal path, the path with each recognized
extension appended, and — when the candidate is a directory — `index`
plus each recognized extension inside it. -/
def probeSequence (fs : FS) (base : Str) : List Str :=
  probeExts.map (fun ext => base ++ ext) ++
    (if fs.isDir base then indexExts.map (fun ext => pathJoin base (str "index" ++ ext))
     else [])

/-- Modelled from the spec: segment-aware prefix compliance — a prefix
matches only when it equals the whole root-relative path or is followed
immediately by a path separator. -/
def segmentAwareUnder (path : Str) (prefixes : List Str) (base : Str) : Bool :=
  let rel := relOf path base
  prefixes.any (fun pre => rel == pre || (pre ++ ['/']).isPrefixOf rel)

/-! ## Concrete run data used by witnesses and counterexamples -/

/-- The project root of the conditional-placement scenario. -/
def c2root : Str := str "/project"

/-- The importer of the conditional-placement scenario. -/
def c2page : Str := str "/project/app/page.tsx"

/-- The misplaced target of the first scenario. -/
def c2buttonLib : Str := str "/project/lib/Button.tsx"

/-- The correctly placed target of the second scenario. -/
def c2buttonComp : Str := str "/project/components/Button.tsx"

/-- Scenario one: the target lives under `lib/`. -/
def c2fsA : FS :=
  { files := [c2page, c2buttonLib]
    dirs := [str "/project", str "/project/app", str "/project/lib"]
    contents :=
      [(c2page, str "import { Button } from \x27@/lib/Button\x27;\n"),
       (c2buttonLib, str "export const Button = 1;\n")]
    canonMap := [(c2page, c2page), (c2buttonLib, c2buttonLib)]
    entries := [] }

/-- Scenario two: the target lives under `components/` and the importer's
specifier is updated. -/
def c2fsB : FS :=
  { files := [c2page, c2buttonComp]
    dirs := [str "/project", str "/project/app", str "/project/components"]
    contents :=
      [(c2page, str "import { Button } from \x27@/components/Button\x27;\n"),
       (c2buttonComp, str "export const Button = 1;\n")]
    canonMap := [(c2page, c2page), (c2buttonComp, c2buttonComp)]
    entries := [] }

/-- Rule options with no organization checks. -/
def emptyRuleOptions : RuleOptions :=
  { max_nesting_depth := 4
    filename_style := FilenameStyle.kebabCase
    file_organization_checks := [] }

/-- A warn-severity rule with no options of interest. -/
def plainRuleConfig : RuleConfig :=
  { severity := Severity.warn, options := emptyRuleOptions }

/-- The organization check of the conditional-placement scenario. -/
def c2check : OrganizationCheck :=
  { id := str "button-rule"
    description := none
    matchPat := { glob := str "**", exclude_glob := [] }
    require := []
    when_imported_by :=
      some { importer_glob := str "app/**", import_path_matches := [str "^@/lib/"] }
    enforce_location := some { must_be_under := [str "components"], message := none } }

/-- A configuration carrying exactly the scenario's organization check. -/
def c2cfg : Config :=
  { rules :=
    { server_side_exports := plainRuleConfig
      component_nesting_depth := plainRuleConfig
      filename_style_consistency := plainRuleConfig
      missing_companion_files := plainRuleConfig
      file_organization :=
        { severity := Severity.warn
          options :=
            { emptyRuleOptions with file_organization_checks := [c2check] } } } }

/-- The text of the extraction-order counterexample: a `require` call
precedes an `import` statement. -/
def c3content : Str := str "const a = require(\x27fs\x27);\nimport x from \x27./b\x27;"

/-- A filesystem holding just the counterexample file. -/
def c3fs : FS :=
  { files := [str "/x/m.ts"]
    dirs := []
    contents := [(str "/x/m.ts", c3content)]
    canonMap := []
    entries := [] }

/-- First importer of the coalescing scenario, using a relative
index-directory shortcut. -/
def c7a : Str := str "/p/a.ts"

/-- Second importer of the coalescing scenario, using an aliased explicit
file spelling. -/
def c7b : Str := str "/p/b.ts"

/-- The index file as reached through the first spelling. -/
def c7libIdxDot : Str := str "/p/./lib/index.ts"

/-- The canonical spelling of the index file. -/
def c7libIdx : Str := str "/p/lib/index.ts"

/-- The coalescing scenario: both spellings canonicalize to one path. -/
def c7fs : FS :=
  { files := [c7a, c7b, c7libIdxDot, c7libIdx]
    dirs := [str "/p", str "/p/./lib", str "/p/lib"]
    contents :=
      [(c7a, str "import x from \x27./lib\x27;\n"),
       (c7b, str "import y from \x27@/lib/index.ts\x27;\n")]
    canonMap := [(c7libIdxDot, c7libIdx), (c7libIdx, c7libIdx), (c7a, c7a), (c7b, c7b)]
    entries := [] }

/-- A client component exporting one server-only name. -/
def c9fs : FS :=
  { files := [str "/p/C.tsx"]
    dirs := []
    contents :=
      [(str "/p/C.tsx",
        str "\x27use client\x27\nexport const getStaticProps = 1;\n")]
    canonMap := []
    entries := [] }

/-! ## Helper lemmas: the matchers only shrink their input -/

/-- A successful `reLit` hands the continuation the input minus the
literal. -/
theorem reLit_some {α : Type} {l : Str} {k : Str → Option α} {s : Str} {r : α}
    (h : reLit l k s = some r) :
    ∃ t, t.length + l.length = s.length ∧ k t = some r := by
  unfold reLit at h
  split at h
  case isTrue hp =>
    refine ⟨s.drop l.length, ?_, h⟩
    have hle : l.length ≤ s.length := (List.isPrefixOf_iff_prefix.mp hp).length_le
    simp [List.length_drop]
    omega
  case isFalse => exact absurd h (by simp)

/-- A successful greedy star hands the continuation a suffix. -/
theorem reStarG_some {α : Type} {p : Char → Bool} {k : Str → Option α} :
    ∀ {s : Str} {r : α}, reStarG p k s = some r →
      ∃ t, t.length ≤ s.length ∧ k t = some r := by
  intro s
  induction s with
  | nil =>
    intro r h
    exact ⟨[], by simp, by simpa [reStarG] using h⟩
  | cons c tl ih =>
    intro r h
    unfold reStarG at h
    split at h
    case isTrue =>
      cases hh : reStarG p k tl with
      | some r2 =>
        rw [hh] at h
        simp only [Option.some.injEq] at h
        subst h
        obtain ⟨t, ht, hk⟩ := ih hh
        exact ⟨t, Nat.le_succ_of_le ht, hk⟩
      | none =>
        rw [hh] at h
        exact ⟨c :: tl, Nat.le_refl _, h⟩
    case isFalse => exact ⟨c :: tl, Nat.le_refl _, h⟩

/-- A successful lazy star hands the continuation a suffix. -/
theorem reStarL_some {α : Type} {p : Char → Bool} {k : Str → Option α} :
    ∀ {s : Str} {r : α}, reStarL p k s = some r →
      ∃ t, t.length ≤ s.length ∧ k t = some r := by
  intro s
  induction s with
  | nil =>
    intro r h
    exact ⟨[], by simp, by simpa [reStarL] using h⟩
  | cons c tl ih =>
    intro r h
    unfold reStarL at h
    cases hh : k (c :: tl) with
    | some r2 =>
      rw [hh] at h
      simp only [Option.some.injEq] at h
      subst h
      exact ⟨c :: tl, Nat.le_refl _, hh⟩
    | none =>
      rw [hh] at h
      simp only [] at h
      split at h
      case isTrue =>
        obtain ⟨t, ht, hk⟩ := ih h
        exact ⟨t, Nat.le_succ_of_le ht, hk⟩
      case isFalse => exact absurd h (by simp)

/-- A successful greedy plus consumes at least one character. -/
theorem rePlusG_some {α : Type} {p : Char → Bool} {k : Str → Option α}
    {s : Str} {r : α} (h : rePlusG p k s = some r) :
    ∃ t, t.length < s.length ∧ k t = some r := by
  cases s with
  | nil => exact absurd h (by simp [rePlusG])
  | cons c tl =>
    simp only [rePlusG] at h
    split at h
    next =>
      obtain ⟨t, ht, hk⟩ := reStarG_some h
      exact ⟨t, Nat.lt_succ_of_le ht, hk⟩
    next => exact absurd h (by simp)

/-- A successful quoted capture consumes the two quotes and a non-empty
run. -/
theorem reQuoteCap_some {α : Type} {k : Str → Str → Option α} {s : Str} {r : α}
    (h : reQuoteCap k s = some r) :
    ∃ cap t, t.length + 2 ≤ s.length ∧ k cap t = some r := by
  cases s with
  | nil => exact absurd h (by simp [reQuoteCap])
  | cons c rest =>
    simp only [reQuoteCap] at h
    split at h
    next =>
      split at h
      next => exact absurd h (by simp)
      next =>
        split at h
        next => exact absurd h (by simp)
        next d rest2 hdrop =>
          split at h
          next =>
            refine ⟨rest.takeWhile (fun d => !isQuote d), rest2, ?_, h⟩
            have hlen := congrArg List.length hdrop
            simp [List.length_drop] at hlen
            have hle : (rest.takeWhile (fun d => !isQuote d)).length ≤ rest.length :=
              (List.takeWhile_prefix _).length_le
            simp
            omega
          next => exact absurd h (by simp)
    next => exact absurd h (by simp)

/-- A successful import-pattern match consumes at least one character. -/
theorem importAt_consumes {s cap rest : Str} (h : importAt s = some (cap, rest)) :
    rest.length < s.length := by
  unfold importAt at h
  obtain ⟨t1, h1len, h1⟩ := reLit_some h
  obtain ⟨t2, h2len, h2⟩ := rePlusG_some h1
  obtain ⟨t3, h3len, h3⟩ := reStarL_some h2
  obtain ⟨t4, h4len, h4⟩ := rePlusG_some h3
  obtain ⟨t5, h5len, h5⟩ := reLit_some h4
  obtain ⟨t6, h6len, h6⟩ := rePlusG_some h5
  obtain ⟨cap2, t7, h7len, h7⟩ := reQuoteCap_some h6
  have himp : (str "import").length = 6 := rfl
  have hfrom : (str "from").length = 4 := rfl
  have h7eq : t7 = rest := by
    simpa using congrArg (fun o => Option.map Prod.snd o) h7
  subst h7eq
  omega

/-- A successful require-pattern match consumes at least one character. -/
theorem requireAt_consumes {s cap rest : Str} (h : requireAt s = some (cap, rest)) :
    rest.length < s.length := by
  unfold requireAt at h
  obtain ⟨t1, h1len, h1⟩ := reLit_some h
  obtain ⟨t2, h2len, h2⟩ := reStarG_some h1
  obtain ⟨t3, h3len, h3⟩ := reLit_some h2
  obtain ⟨t4, h4len, h4⟩ := reStarG_some h3
  obtain ⟨cap2, t5, h5len, h5⟩ := reQuoteCap_some h4
  obtain ⟨t6, h6len, h6⟩ := reStarG_some h5
  obtain ⟨t7, h7len, h7⟩ := reLit_some h6
  have hreq : (str "require").length = 7 := rfl
  have hpar : (str "(").length = 1 := rfl
  have hcls : (str ")").length = 1 := rfl
  have h7eq : t7 = rest := by
    simpa using congrArg (fun o => Option.map Prod.snd o) h7
  subst h7eq
  omega

/-- A successful export-pattern match consumes at least one character. -/
theorem exportAt_consumes {s cap rest : Str} (h : exportAt s = some (cap, rest)) :
    rest.length < s.length := by
  unfold exportAt at h
  obtain ⟨t1, h1len, h1⟩ := reLit_some h
  obtain ⟨t2, h2len, h2⟩ := rePlusG_some h1
  obtain ⟨t3, h3len, h3⟩ := reStarL_some h2
  obtain ⟨t4, h4len, h4⟩ := rePlusG_some h3
  obtain ⟨t5, h5len, h5⟩ := reLit_some h4
  obtain ⟨t6, h6len, h6⟩ := rePlusG_some h5
  obtain ⟨cap2, t7, h7len, h7⟩ := reQuoteCap_some h6
  have hexp : (str "export").length = 6 := rfl
  have hfrom : (str "from").length = 4 := rfl
  have h7eq : t7 = rest := by
    simpa using congrArg (fun o => Option.map Prod.snd o) h7
  subst h7eq
  omega

/-- Every position reported by the scanner is at least the start
position. -/
theorem scanPos_ge {m : Str → Option (Str × Str)} :
    ∀ (fuel pos : Nat) (s : Str) (q : Nat × Str), q ∈ scanPos m fuel pos s → pos ≤ q.1 := by
  intro fuel
  induction fuel with
  | zero => intro pos s q h; simp [scanPos] at h
  | succ f ih =>
    intro pos s q h
    match s with
    | [] => simp [scanPos] at h
    | c :: t =>
      simp only [scanPos] at h
      cases hm : m (c :: t) with
      | some pr =>
        obtain ⟨cap, rest⟩ := pr
        rw [hm] at h
        simp only [List.mem_cons] at h
        cases h with
        | inl h => rw [h]
        | inr h => exact Nat.le_trans (Nat.le_add_right _ _) (ih _ rest q h)
      | none =>
        rw [hm] at h
        exact Nat.le_trans (Nat.le_succ _) (ih (pos + 1) t q h)

/-- When the matcher always shrinks its input, the scanner reports
strictly increasing positions: captures come in first-seen-in-text
order. -/
theorem scanPos_chain {m : Str → Option (Str × Str)}
    (hm : ∀ s cap rest, m s = some (cap, rest) → rest.length < s.length) :
    ∀ (fuel pos : Nat) (s : Str),
      List.Chain' (fun a b => a.1 < b.1) (scanPos m fuel pos s) := by
  intro fuel
  induction fuel with
  | zero => intro pos s; simp [scanPos]
  | succ f ih =>
    intro pos s
    match s with
    | [] => simp [scanPos]
    | c :: t =>
      simp only [scanPos]
      cases hme : m (c :: t) with
      | none => exact ih (pos + 1) t
      | some pr =>
        obtain ⟨cap, rest⟩ := pr
        rw [List.chain'_cons']
        refine ⟨?_, ih _ rest⟩
        intro b hb
        have hb2 : b ∈ scanPos m f (pos + (t.length + 1 - rest.length)) rest :=
          List.mem_of_mem_head? hb
        have h1 := scanPos_ge f _ rest b hb2
        have h2 := hm (c :: t) cap rest hme
        simp only [List.length_cons] at h2
        simp only []
        omega

/-! ## Claim theorems -/

/-- Claim C1 (code bug): `is_under_any_prefix` accepts a prefix that is a
bare leading substring of a longer segment.  On the failing input — path
`components-old/Button.tsx`, prefixes `["components"]` — the code returns
`true`, although segment-aware comparison as specified (the prefix equals
the whole root-relative path or is followed immediately by a path
separator) rejects it: `components` is merely a leading substring of the
segment `components-old`. -/
theorem is_under_any_prefix_substring_bug :
    is_under_any_prefix (str "components-old/Button.tsx") [str "components"] (str "") = true ∧
    segmentAwareUnder (str "components-old/Button.tsx") [str "components"] (str "") = false := by
  constructor
  · decide
  · decide

/-- Claim C3, counterexample: in the file below the `require` specifier
`fs` occurs at text position 10, before the `import` specifier `./b` at
position 25, yet `extract_imports` returns `./b` first — the output is
not in first-seen-in-text order across pattern classes. -/
theorem extract_imports_text_order_counterexample :
    extract_imports c3fs (str "/x/m.ts") = [str "./b", str "fs"] ∧
    scanCaps requireAt c3content = [(10, str "fs")] ∧
    scanCaps importAt c3content = [(25, str "./b")] ∧
    (extract_imports c3fs (str "/x/m.ts")).indexOf (str "./b") = 0 ∧
    (extract_imports c3fs (str "/x/m.ts")).indexOf (str "fs") = 1 := by
  refine ⟨by decide, by decide, by decide, by decide, by decide⟩

/-- Claim C3, amended: for every readable file, `extract_imports` returns
the captures of the import-from pattern, then those of the require
pattern, then those of the export-from pattern; within each pattern class
the captures appear in first-seen-in-text order (strictly increasing
match positions), but text order is not respected across classes. -/
theorem extract_imports_grouped_order (fs : FS) (file content : Str)
    (h : fs.read file = some content) :
    extract_imports fs file =
      (scanCaps importAt content).map Prod.snd ++
        (scanCaps requireAt content).map Prod.snd ++
        (scanCaps exportAt content).map Prod.snd ∧
    List.Chain' (fun a b => a.1 < b.1) (scanCaps importAt content) ∧
    List.Chain' (fun a b => a.1 < b.1) (scanCaps requireAt content) ∧
    List.Chain' (fun a b => a.1 < b.1) (scanCaps exportAt content) := by
  refine ⟨?_, ?_, ?_, ?_⟩
  · unfold extract_imports
    rw [h]
    rfl
  · exact scanPos_chain (fun s cap rest hm => importAt_consumes hm) _ 0 content
  · exact scanPos_chain (fun s cap rest hm => requireAt_consumes hm) _ 0 content
  · exact scanPos_chain (fun s cap rest hm => exportAt_consumes hm) _ 0 content

/-- Claim C3, witness for the amended theorem, at the counterexample
file. -/
theorem extract_imports_grouped_order_witness :
    c3fs.read (str "/x/m.ts") = some c3content ∧
    extract_imports c3fs (str "/x/m.ts") =
      (scanCaps importAt c3content).map Prod.snd ++
        (scanCaps requireAt c3content).map Prod.snd ++
        (scanCaps exportAt c3content).map Prod.snd :=
  ⟨by decide, (extract_imports_grouped_order c3fs (str "/x/m.ts") c3content (by decide)).1⟩

/-- Claim C4: `resolve_import_path` joins the project root with the
remainder of an alias specifier, joins the importer's parent directory
with a relative specifier, and returns `none` for bare specifiers. -/
theorem resolve_import_path_cases (spec importer root dir : Str) :
    ((str "@/").isPrefixOf spec = true →
      resolve_import_path spec importer root =
        some (pathJoin root (spec.drop (str "@/").length))) ∧
    ((str "@/").isPrefixOf spec = false →
      ((str "./").isPrefixOf spec || (str "../").isPrefixOf spec) = true →
      parentPath importer = some dir →
      resolve_import_path spec importer root = some (pathJoin dir spec)) ∧
    ((str "@/").isPrefixOf spec = false →
      (str "./").isPrefixOf spec = false →
      (str "../").isPrefixOf spec = false →
      resolve_import_path spec importer root = none) := by
  refine ⟨?_, ?_, ?_⟩
  · intro h
    simp [resolve_import_path, dropLit?, h]
  · intro h1 h2 h3
    simp [resolve_import_path, h1, h2, h3]
  · intro h1 h2 h3
    simp [resolve_import_path, h1, h2, h3]

/-- Claim C4, witness: the three cases at concrete inputs. -/
theorem resolve_import_path_cases_witness :
    resolve_import_path (str "@/lib/Button") (str "/project/app/page.tsx") (str "/project") =
      some (pathJoin (str "/project") ((str "@/lib/Button").drop (str "@/").length)) ∧
    resolve_import_path (str "./Button") (str "/project/app/page.tsx") (str "/project") =
      some (pathJoin (str "/project/app") (str "./Button")) ∧
    resolve_import_path (str "react") (str "/project/app/page.tsx") (str "/project") = none := by
  refine ⟨?_, ?_, ?_⟩
  · exact (resolve_import_path_cases (str "@/lib/Button") (str "/project/app/page.tsx")
      (str "/project") (str "/project/app")).1 (by decide)
  · exact (resolve_import_path_cases (str "./Button") (str "/project/app/page.tsx")
      (str "/project") (str "/project/app")).2.1 (by decide) (by decide) (by decide)
  · exact (resolve_import_path_cases (str "react") (str "/project/app/page.tsx")
      (str "/project") (str "/project/app")).2.2 (by decide) (by decide) (by decide)

/-- Claim C5: `matches_glob` returns `true` exactly when the pattern
compiles as a glob and matches the bare root-relative form of the path
(the path unchanged when it is not under the root) or that form prefixed
with a leading slash; an invalid pattern yields `false`. -/
theorem matches_glob_spec (path pattern base : Str) :
    matches_glob path pattern base = true ↔
      ∃ p, globNew pattern = some p ∧
        (globMatches p (relOf path base) = true ∨
          globMatches p ('/' :: relOf path base) = true) := by
  unfold matches_glob
  cases h : globNew pattern with
  | none => simp
  | some p =>
    simp only [Option.some.injEq, Bool.or_eq_true]
    constructor
    · intro hm
      exact ⟨p, rfl, hm⟩
    · rintro ⟨p2, rfl, hm⟩
      exact hm

/-- Claim C8: the exit status of `main` is non-zero exactly when the
collection holds an error-severity diagnostic, `has_errors` is exactly
that test, and the exit code is `1` when it holds and `0` otherwise. -/
theorem exit_code_iff_has_errors (c : DiagnosticCollection) :
    (main_exit_code c ≠ 0 ↔ has_errors c = true) ∧
    (has_errors c = true ↔ ∃ d ∈ c.diagnostics, d.severity = Severity.error) ∧
    (main_exit_code c = 1 ↔ has_errors c = true) ∧
    (main_exit_code c = 0 ↔ has_errors c = false) := by
  have hiff : has_errors c = true ↔ ∃ d ∈ c.diagnostics, d.severity = Severity.error := by
    unfold has_errors
    rw [List.any_eq_true]
    constructor
    · rintro ⟨d, hd, he⟩
      refine ⟨d, hd, ?_⟩
      cases hsev : d.severity
      · rw [isErrorDiag, hsev] at he; exact absurd he (by simp)
      · rfl
    · rintro ⟨d, hd, he⟩
      refine ⟨d, hd, ?_⟩
      rw [isErrorDiag, he]
  unfold main_exit_code
  by_cases h : has_errors c <;> simp [h, hiff.symm]

/-- The first-hit loop over candidate paths, as a `find?` over the mapped
probe list. -/
theorem findSome_guard {α β : Type} (P : β → Bool) (g : α → β) (l : List α) :
    (l.findSome? (fun x => if P (g x) then some (g x) else none)) =
      (l.map g).find? P := by
  induction l with
  | nil => rfl
  | cons a t ih =>
    simp only [List.findSome?_cons, List.map_cons, List.find?_cons]
    cases h : P (g a)
    · simp only [h, Bool.false_eq_true, if_false]
      exact ih
    · simp only [h, if_true]

/-- Claim C6: `resolve_to_actual_file` probes the literal path, the path
with each recognized extension in order, then — when the candidate is a
directory — each `index` file inside it, and returns the first probe that
is an existing regular file. -/
theorem resolve_to_actual_file_probe_order (fs : FS) (base : Str) :
    resolve_to_actual_file fs base =
      (probeSequence fs base).find? (fun c => fs.pathExists c && fs.isFile c) := by
  unfold resolve_to_actual_file probeSequence
  rw [findSome_guard (fun c => fs.pathExists c && fs.isFile c) (fun ext => base ++ ext) probeExts,
    findSome_guard (fun c => fs.pathExists c && fs.isFile c)
      (fun ext => pathJoin base (str "index" ++ ext)) indexExts,
    List.find?_append]
  cases hfind : (probeExts.map (fun ext => base ++ ext)).find?
      (fun c => fs.pathExists c && fs.isFile c) with
  | some c => simp [hfind]
  | none =>
    by_cases hd : fs.isDir base
    · simp [hfind, hd]
    · simp [hfind, hd]

/-- The push-if loop over a name list equals appending the filtered,
mapped list. -/
theorem foldl_push_filter {α : Type} (p : α → Bool) (mk : α → Diagnostic) :
    ∀ (l : List α) (d : List Diagnostic),
      l.foldl (fun d x => if p x then d ++ [mk x] else d) d =
        d ++ (l.filter p).map mk := by
  intro l
  induction l with
  | nil => intro d; simp
  | cons a t ih =>
    intro d
    cases h : p a
    · simp only [List.foldl_cons, h, Bool.false_eq_true, if_false, List.filter_cons, ih]
    · simp only [List.foldl_cons, h, if_true, List.filter_cons, ih, List.map_cons,
        List.append_assoc, List.singleton_append]

/-- Claim C9: `check_server_side_exports` adds nothing for an unreadable
file or one without a `use client` directive line; with the directive, it
adds exactly one diagnostic per server-only export name whose export
declaration pattern occurs in the content, in source order. -/
theorem check_server_side_exports_spec (fs : FS) (path : Str) (config : Config)
    (d : List Diagnostic) :
    (fs.read path = none → check_server_side_exports fs path config d = d) ∧
    (∀ content, fs.read path = some content → has_use_client content = false →
      check_server_side_exports fs path config d = d) ∧
    (∀ content, fs.read path = some content → has_use_client content = true →
      check_server_side_exports fs path config d =
        d ++ (server_exports.filter (fun n => hasServerExport n content)).map
          (serverExportDiag config.rules.server_side_exports.severity path)) := by
  refine ⟨?_, ?_, ?_⟩
  · intro h
    unfold check_server_side_exports
    rw [h]
  · intro content h hc
    unfold check_server_side_exports
    rw [h]
    dsimp only
    rw [hc]
    rfl
  · intro content h hc
    unfold check_server_side_exports
    rw [h]
    dsimp only
    rw [hc]
    simp only [Bool.not_true, Bool.false_eq_true, if_false]
    exact foldl_push_filter (fun n => hasServerExport n content)
      (serverExportDiag config.rules.server_side_exports.severity path) server_exports d

/-- Claim C9, witness: a client component exporting `getStaticProps`
receives exactly that one diagnostic. -/
theorem check_server_side_exports_spec_witness :
    c9fs.read (str "/p/C.tsx") =
      some (str "\x27use client\x27\nexport const getStaticProps = 1;\n") ∧
    has_use_client (str "\x27use client\x27\nexport const getStaticProps = 1;\n") = true ∧
    check_server_side_exports c9fs (str "/p/C.tsx") c2cfg [] =
      [] ++ ((server_exports.filter (fun n =>
          hasServerExport n (str "\x27use client\x27\nexport const getStaticProps = 1;\n"))).map
        (serverExportDiag c2cfg.rules.server_side_exports.severity (str "/p/C.tsx"))) :=
  ⟨by decide, by decide,
    (check_server_side_exports_spec c9fs (str "/p/C.tsx") c2cfg []).2.2
      (str "\x27use client\x27\nexport const getStaticProps = 1;\n") (by decide) (by decide)⟩

/-- Claim C10: a file whose stem is one of the special Next.js or
configuration names is skipped by `check_filename_style` whatever the
configured style. -/
theorem check_filename_style_special_skip (path : Str) (config : Config)
    (d : List Diagnostic) (stem : Str)
    (h1 : file_stem path = some stem) (h2 : stem ∈ special_files) :
    check_filename_style path config d = d := by
  unfold check_filename_style
  rw [h1]
  dsimp only
  have hc : special_files.contains stem = true := by
    simpa using List.elem_eq_true_of_mem h2
  rw [hc]
  rfl

/-- Claim C10, witness: `app/page.tsx` has special stem `page` and is
skipped under a kebab-case configuration. -/
theorem check_filename_style_special_skip_witness :
    file_stem (str "/project/app/page.tsx") = some (str "page") ∧
    (str "page") ∈ special_files ∧
    check_filename_style (str "/project/app/page.tsx") c2cfg [] = [] :=
  ⟨by decide, by decide,
    check_filename_style_special_skip (str "/project/app/page.tsx") c2cfg [] (str "page")
      (by decide) (by decide)⟩

/-! ## Helper lemmas: the import index -/

/-- A key is in the inserted index iff it was there or is the inserted
key. -/
theorem indexKeys_insert_mem (idx : List (Str × List Str)) (k v x : Str) :
    x ∈ indexKeys (indexInsert idx k v) ↔ x ∈ indexKeys idx ∨ x = k := by
  induction idx with
  | nil => simp [indexInsert, indexKeys]
  | cons e rest ih =>
    unfold indexInsert
    cases h : e.1 == k
    · simp only [Bool.false_eq_true, if_false, indexKeys, List.map_cons, List.mem_cons]
      rw [indexKeys] at ih
      rw [ih]
      tauto
    · simp only [if_true, indexKeys, List.map_cons, List.mem_cons]
      have : e.1 = k := by simpa using h
      subst this
      tauto

/-- Insertion keeps the keys duplicate-free. -/
theorem indexKeys_insert_nodup {idx : List (Str × List Str)} {k v : Str}
    (h : (indexKeys idx).Nodup) : (indexKeys (indexInsert idx k v)).Nodup := by
  induction idx with
  | nil => simp [indexInsert, indexKeys]
  | cons e rest ih =>
    rw [indexKeys, List.map_cons, List.nodup_cons] at h
    unfold indexInsert
    cases hk : e.1 == k
    · simp only [Bool.false_eq_true, if_false, indexKeys, List.map_cons, List.nodup_cons]
      refine ⟨?_, ih h.2⟩
      intro hmem
      rcases (indexKeys_insert_mem rest k v e.1).mp hmem with hin | heq
      · exact h.1 hin
      · exact absurd heq (by simpa using hk)
    · simp only [if_true, indexKeys, List.map_cons, List.nodup_cons]
      exact h

/-- Looking up the inserted key returns the old list with the value
appended. -/
theorem indexLookup_insert_self (idx : List (Str × List Str)) (k v : Str) :
    indexLookup (indexInsert idx k v) k = indexLookup idx k ++ [v] := by
  induction idx with
  | nil => simp [indexInsert, indexLookup, alookup]
  | cons e rest ih =>
    unfold indexInsert
    cases hk : e.1 == k
    · simp only [Bool.false_eq_true, if_false]
      unfold indexLookup alookup
      rw [List.find?_cons_of_neg _ (by simp [hk]),
        List.find?_cons_of_neg _ (by simp [hk])]
      exact ih
    · simp only [if_true]
      unfold indexLookup alookup
      rw [List.find?_cons_of_pos _ (by simpa using hk),
        List.find?_cons_of_pos _ (by simpa using hk)]
      simp

/-- Looking up a different key is unchanged by insertion. -/
theorem indexLookup_insert_ne (idx : List (Str × List Str)) (k v k2 : Str)
    (hne : k2 ≠ k) : indexLookup (indexInsert idx k v) k2 = indexLookup idx k2 := by
  induction idx with
  | nil =>
    unfold indexInsert indexLookup alookup
    rw [List.find?_cons_of_neg _ (by simp; exact fun h => hne h.symm)]
  | cons e rest ih =>
    unfold indexInsert
    cases hk : e.1 == k
    · simp only [Bool.false_eq_true, if_false]
      unfold indexLookup alookup
      cases he : e.1 == k2
      · rw [List.find?_cons_of_neg _ (by simp [he]),
          List.find?_cons_of_neg _ (by simp [he])]
        exact ih
      · rw [List.find?_cons_of_pos _ (by simpa using he),
          List.find?_cons_of_pos _ (by simpa using he)]
    · simp only [if_true]
      have hek : e.1 = k := by simpa using hk
      have he2 : (e.1 == k2) = false := by
        simp only [beq_eq_false_iff_ne, ne_eq, hek]
        exact fun h => hne h.symm
      unfold indexLookup alookup
      rw [List.find?_cons_of_neg _ (by simp [he2]),
        List.find?_cons_of_neg _ (by simp; simpa using he2)]

/-- Membership of an importer list survives any insertion. -/
theorem indexLookup_insert_preserve (idx : List (Str × List Str)) (k v k2 x : Str)
    (hx : x ∈ indexLookup idx k2) : x ∈ indexLookup (indexInsert idx k v) k2 := by
  by_cases h : k2 = k
  · subst h
    rw [indexLookup_insert_self]
    exact List.mem_append_left _ hx
  · rw [indexLookup_insert_ne idx k v k2 h]
    exact hx

/-- One `recordSpec` step keeps key nodup. -/
theorem recordSpec_nodup {fs : FS} {root importer : Str}
    {idx : List (Str × List Str)} {spec : Str}
    (h : (indexKeys idx).Nodup) :
    (indexKeys (recordSpec fs root importer idx spec)).Nodup := by
  unfold recordSpec
  cases normalizedTarget fs root importer spec
  · exact h
  · exact indexKeys_insert_nodup h

/-- One `recordSpec` step preserves importer membership. -/
theorem recordSpec_preserve {fs : FS} {root importer : Str}
    {idx : List (Str × List Str)} {spec k x : Str}
    (hx : x ∈ indexLookup idx k) :
    x ∈ indexLookup (recordSpec fs root importer idx spec) k := by
  unfold recordSpec
  cases normalizedTarget fs root importer spec
  · exact hx
  · exact indexLookup_insert_preserve _ _ _ _ _ hx

/-- The spec fold keeps key nodup. -/
theorem specFold_nodup (fs : FS) (root importer : Str) :
    ∀ (specs : List Str) (idx : List (Str × List Str)),
      (indexKeys idx).Nodup →
      (indexKeys (specs.foldl (recordSpec fs root importer) idx)).Nodup := by
  intro specs
  induction specs with
  | nil => intro idx h; exact h
  | cons a t ih =>
    intro idx h
    exact ih _ (recordSpec_nodup h)

/-- The spec fold preserves importer membership. -/
theorem specFold_preserve (fs : FS) (root importer : Str) :
    ∀ (specs : List Str) (idx : List (Str × List Str)) (k x : Str),
      x ∈ indexLookup idx k →
      x ∈ indexLookup (specs.foldl (recordSpec fs root importer) idx) k := by
  intro specs
  induction specs with
  | nil => intro idx k x h; exact h
  | cons a t ih =>
    intro idx k x h
    exact ih _ k x (recordSpec_preserve h)

/-- After folding an importer's specifiers, the importer is recorded under
the normalised target of each of them. -/
theorem specFold_adds (fs : FS) (root importer : Str) :
    ∀ (specs : List Str) (idx : List (Str × List Str)) (spec k : Str),
      spec ∈ specs → normalizedTarget fs root importer spec = some k →
      importer ∈ indexLookup (specs.foldl (recordSpec fs root importer) idx) k := by
  intro specs
  induction specs with
  | nil => intro idx spec k h; exact absurd h (List.not_mem_nil spec)
  | cons a t ih =>
    intro idx spec k hmem hk
    rw [List.foldl_cons]
    rcases List.mem_cons.mp hmem with heq | hin
    · subst heq
      apply specFold_preserve
      unfold recordSpec
      rw [hk, indexLookup_insert_self]
      exact List.mem_append_right _ (List.mem_singleton_self importer)
    · exact ih _ spec k hin hk

/-- The file fold keeps key nodup. -/
theorem fileFold_nodup (fs : FS) (root : Str) :
    ∀ (files : List Str) (idx : List (Str × List Str)),
      (indexKeys idx).Nodup →
      (indexKeys (files.foldl (recordFile fs root) idx)).Nodup := by
  intro files
  induction files with
  | nil => intro idx h; exact h
  | cons f t ih =>
    intro idx h
    exact ih _ (specFold_nodup fs root f _ idx h)

/-- The file fold preserves importer membership. -/
theorem fileFold_preserve (fs : FS) (root : Str) :
    ∀ (files : List Str) (idx : List (Str × List Str)) (k x : Str),
      x ∈ indexLookup idx k →
      x ∈ indexLookup (files.foldl (recordFile fs root) idx) k := by
  intro files
  induction files with
  | nil => intro idx k x h; exact h
  | cons f t ih =>
    intro idx k x h
    exact ih _ k x (specFold_preserve fs root f _ idx k x h)

/-- Claim C7: in `build_import_index`, keys are pairwise distinct and
every importer whose specifier normalises to a canonical path `k` is
recorded in the single entry for `k` — distinct spellings of one file
coalesce into one entry, never two. -/
theorem build_import_index_coalesces (fs : FS) (files : List Str)
    (root importer spec k : Str)
    (h1 : importer ∈ files) (h2 : spec ∈ extract_imports fs importer)
    (h3 : normalizedTarget fs root importer spec = some k) :
    (indexKeys (build_import_index fs files root)).Nodup ∧
    importer ∈ indexLookup (build_import_index fs files root) k := by
  constructor
  · exact fileFold_nodup fs root files [] (by simp [indexKeys])
  · unfold build_import_index
    have main : ∀ (fl : List Str) (idx : List (Str × List Str)), importer ∈ fl →
        importer ∈ indexLookup (fl.foldl (recordFile fs root) idx) k := by
      intro fl
      induction fl with
      | nil => intro idx h; exact absurd h (List.not_mem_nil _)
      | cons f t ih =>
        intro idx hmem
        rw [List.foldl_cons]
        rcases List.mem_cons.mp hmem with heq | hin
        · subst heq
          apply fileFold_preserve
          unfold recordFile
          exact specFold_adds fs root importer _ idx spec k h2 h3
        · exact ih _ hin
    exact main files [] h1

/-- Claim C7, witness: the coalescing scenario — `a.ts` reaches the index
file through `./lib` and `b.ts` through `@/lib/index.ts`; both land in
the one entry for the canonical path. -/
theorem build_import_index_coalesces_witness :
    (str "@/lib/index.ts") ∈ extract_imports c7fs c7b ∧
    normalizedTarget c7fs (str "/p") c7b (str "@/lib/index.ts") = some c7libIdx ∧
    c7b ∈ indexLookup (build_import_index c7fs [c7a, c7b] (str "/p")) c7libIdx :=
  ⟨by decide, by decide,
    (build_import_index_coalesces c7fs [c7a, c7b] (str "/p") c7b
      (str "@/lib/index.ts") c7libIdx (by decide) (by decide) (by decide)).2⟩

/-- Claim C2 (evaluator modelled from the spec): with importer
`app/page.tsx` importing `@/lib/Button`, target `lib/Button.tsx`, and the
rule `importer_glob app/**`, `import_path_matches ["^@/lib/"]`,
`must_be_under ["components"]`, the file-organization pass produces
exactly one diagnostic, and it names `lib/Button.tsx`; with the target at
`components/Button.tsx` and the specifier updated, it produces none. -/
theorem file_organization_conditional_placement_scenario :
    ((check_file_organization c2fsA c2root [c2page, c2buttonLib] c2cfg []).filter
        (fun dg => dg.file == c2buttonLib)).length = 1 ∧
    (check_file_organization c2fsA c2root [c2page, c2buttonLib] c2cfg []).length = 1 ∧
    ((check_file_organization c2fsB c2root [c2page, c2buttonComp] c2cfg []).filter
        (fun dg => dg.file == c2buttonComp)).length = 0 ∧
    check_file_organization c2fsB c2root [c2page, c2buttonComp] c2cfg [] = [] := by
  refine ⟨by decide, by decide, by decide, by decide⟩
